import Mathlib

/-!
Verification of the resume-analysis engine (`utils/analyzer.py`).

The Python module is shallowly embedded here.  Texts are modelled as
`List Char`; the pure-Python float arithmetic is idealised as exact
arithmetic over `ℚ`/`ℝ` (so `math.sqrt` becomes `Real.sqrt`, `math.log`
becomes `Real.log`, and Python `int(x)` truncation becomes `pyInt`).
Regular-expression searches used by the source (all of which are literal
or fixed-shape patterns) are embedded as explicit decidable searches with
Python's word-boundary (`\b`) semantics spelled out.
-/

namespace Analyzer

/-- Texts are sequences of characters (Python `str`). -/
abbrev Str := List Char

/-- Shorthand turning a Lean string literal into its character list. -/
def S (s : String) : Str := s.data

/-- Python `\s` / `str.split()` whitespace (ASCII range). -/
def isSpaceChar (c : Char) : Bool :=
  c = ' ' || c = '\t' || c = '\n' || c = '\r' || c = '\x0b' || c = '\x0c'

/-- ASCII lowercasing, modelling `str.lower()` on the characters that matter
to the analyzer (every non-`[a-z0-9\s]` character is subsequently replaced
by a space, so only the ASCII letters' case is observable). -/
def asciiLower (c : Char) : Char :=
  if 'A' ≤ c && c ≤ 'Z' then Char.ofNat (c.toNat + 32) else c

/-- A character kept by the tokenizer's substitution step: `[a-z0-9]`. -/
def keepChar (c : Char) : Bool :=
  ('a' ≤ c && c ≤ 'z') || ('0' ≤ c && c ≤ '9')

/-- Python regex `\w` (ASCII range): letters, digits and underscore. -/
def isWordChar (c : Char) : Bool :=
  ('a' ≤ c && c ≤ 'z') || ('A' ≤ c && c ≤ 'Z') || ('0' ≤ c && c ≤ '9') || c = '_'

/-- Python `str.split()`: split on maximal whitespace runs, no empty words. -/
def splitWs : Str → List Str
  | [] => []
  | c :: t =>
    if isSpaceChar c then splitWs t
    else
      match t, splitWs t with
      | [], _ => [[c]]
      | d :: _, r =>
        if isSpaceChar d then [c] :: r
        else
          match r with
          | [] => [[c]]
          | w :: ws => (c :: w) :: ws

/-- Helper for `pdedup`: drop every element already seen. -/
def pdedupAux {α : Type} [DecidableEq α] : List α → List α → List α
  | [], _ => []
  | a :: t, seen =>
    if a ∈ seen then pdedupAux t seen else a :: pdedupAux t (a :: seen)

/-- Order-preserving deduplication keeping the first occurrence of each
element: Python `list(dict.fromkeys(...))`. -/
def pdedup {α : Type} [DecidableEq α] (l : List α) : List α :=
  pdedupAux l []

/-- The module-level `_STOP_WORDS` set, transcribed from the source. -/
def STOP_WORDS : List Str :=
  [S "a", S "an", S "the", S "and", S "or", S "but", S "in", S "on", S "at",
   S "to", S "for", S "of", S "with", S "by", S "from", S "up", S "about",
   S "into", S "through", S "during", S "is", S "are", S "was", S "were",
   S "be", S "been", S "being", S "have", S "has", S "had", S "do", S "does",
   S "did", S "will", S "would", S "could", S "should", S "may", S "might",
   S "shall", S "can", S "need", S "dare", S "ought", S "used", S "it",
   S "its", S "this", S "that", S "these", S "those", S "i", S "you", S "he",
   S "she", S "we", S "they", S "what", S "which", S "who", S "whom",
   S "when", S "where", S "why", S "how", S "all", S "each", S "every",
   S "both", S "few", S "more", S "most", S "other", S "some", S "such",
   S "no", S "not", S "only", S "same", S "so", S "than", S "too", S "very",
   S "just", S "as", S "if", S "then", S "because", S "while", S "although",
   S "though", S "unless", S "until", S "since", S "after", S "before",
   S "above", S "below", S "between", S "under", S "over", S "again",
   S "further", S "once", S "here", S "there", S "own", S "s", S "t",
   S "re", S "ve", S "ll", S "d"]

/-- The substitution `re.sub(r"[^a-z0-9\s]", " ", text)` on one character. -/
def cleanChar (c : Char) : Char :=
  if keepChar c || isSpaceChar c then c else ' '

/-- `_tokenize`: lowercase, replace every character outside `[a-z0-9\s]`
by a space, split on whitespace, keep tokens of length `> 2` that are not
stop words. -/
def tokenize (text : Str) : List Str :=
  let low := text.map asciiLower
  let cleaned := low.map cleanChar
  (splitWs cleaned).filter fun t => 2 < t.length && !(STOP_WORDS.contains t)

/-- `_term_freq` read back through `dict.get(term, 0.0)`: the relative
frequency of `t` among `tokens` (`0` for the empty document). -/
def termFreq (tokens : List Str) (t : Str) : ℚ :=
  if tokens = [] then 0 else (tokens.count t : ℚ) / (tokens.length : ℚ)

/-- `_idf`: smoothed inverse document frequency of `term` over `docs`. -/
noncomputable def idf (term : Str) (docs : List (List Str)) : ℝ :=
  let df := (docs.filter fun doc => doc.contains term).length
  if df = 0 then 0 else Real.log ((1 + docs.length : ℝ) / (1 + df)) + 1

/-- `_tfidf_vector`: the TF-IDF vector of `tokens` over `vocab`, with the
IDF map precomputed over `docs` (as `_similarity` does). -/
noncomputable def tfidfVector (tokens : List Str) (vocab : List Str)
    (docs : List (List Str)) : List ℝ :=
  vocab.map fun term => (termFreq tokens term : ℝ) * idf term docs

open Classical

/-- `_cosine_similarity`: dot product over the product of magnitudes, with
an explicit `0` result whenever either magnitude is exactly `0`. -/
noncomputable def cosineSimilarity (vecA vecB : List ℝ) : ℝ :=
  let dot := (List.zipWith (fun a b => a * b) vecA vecB).sum
  let magA := Real.sqrt ((vecA.map fun a => a * a).sum)
  let magB := Real.sqrt ((vecB.map fun b => b * b).sum)
  if magA = 0 ∨ magB = 0 then 0 else dot / (magA * magB)

/-- `_similarity`: TF-IDF cosine similarity of the two texts, `0` when
either tokenizes to the empty sequence. -/
noncomputable def similarity (textA textB : Str) : ℝ :=
  let tokA := tokenize textA
  let tokB := tokenize textB
  if tokA = [] ∨ tokB = [] then 0
  else
    let vocab := pdedup (tokA ++ tokB)
    let docs := [tokA, tokB]
    cosineSimilarity (tfidfVector tokA vocab docs) (tfidfVector tokB vocab docs)

/-- `_top_keywords`' per-term score `tf * (1 + log(1 / tf))`. -/
noncomputable def kwScore (tokens : List Str) (t : Str) : ℝ :=
  (termFreq tokens t : ℝ) * (1 + Real.log (1 / (termFreq tokens t : ℝ)))

/-- `_top_keywords`: the distinct tokens (first-seen order, as the keys of
the `tf` dict), stably sorted by descending score, truncated to `n`. -/
noncomputable def topKeywords (text : Str) (n : ℕ) : List Str :=
  let tokens := tokenize text
  ((pdedup tokens).mergeSort fun a b =>
    decide (kwScore tokens b ≤ kwScore tokens a)).take n

/-- The module-level `SKILLS_DB` taxonomy, transcribed from the source
(category name paired with its ordered skill list). -/
def SKILLS_DB : List (Str × List Str) :=
  [(S "programming_languages",
    [S "python", S "java", S "javascript", S "typescript", S "c++", S "c#",
     S "c", S "ruby", S "php", S "swift", S "kotlin", S "go", S "rust",
     S "scala", S "r", S "matlab", S "perl", S "shell", S "bash",
     S "powershell", S "dart", S "lua"]),
   (S "web_frontend",
    [S "html", S "css", S "react", S "reactjs", S "vue", S "vuejs",
     S "angular", S "nextjs", S "nuxtjs", S "svelte", S "jquery",
     S "bootstrap", S "tailwind", S "sass", S "scss", S "webpack",
     S "vite", S "graphql"]),
   (S "web_backend",
    [S "flask", S "django", S "fastapi", S "express", S "nodejs",
     S "spring", S "laravel", S "rails", S "asp.net", S "nestjs",
     S "gin", S "fiber"]),
   (S "databases",
    [S "sql", S "mysql", S "postgresql", S "postgres", S "mongodb",
     S "redis", S "sqlite", S "oracle", S "cassandra", S "dynamodb",
     S "elasticsearch", S "neo4j", S "mariadb", S "firebase"]),
   (S "cloud_devops",
    [S "aws", S "azure", S "gcp", S "google cloud", S "docker",
     S "kubernetes", S "terraform", S "ansible", S "jenkins",
     S "github actions", S "circleci", S "linux", S "nginx", S "apache",
     S "helm", S "prometheus", S "grafana"]),
   (S "data_ml",
    [S "machine learning", S "deep learning", S "nlp", S "computer vision",
     S "tensorflow", S "pytorch", S "keras", S "scikit-learn", S "sklearn",
     S "pandas", S "numpy", S "matplotlib", S "seaborn", S "spark",
     S "hadoop", S "tableau", S "power bi", S "data analysis",
     S "data science", S "statistics", S "regression", S "classification",
     S "neural network"]),
   (S "tools_practices",
    [S "git", S "github", S "gitlab", S "bitbucket", S "jira",
     S "confluence", S "agile", S "scrum", S "kanban", S "ci/cd",
     S "rest api", S "microservices", S "unit testing", S "pytest",
     S "jest", S "selenium", S "postman", S "figma", S "adobe xd",
     S "linux", S "vim"]),
   (S "soft_skills",
    [S "leadership", S "communication", S "teamwork", S "problem solving",
     S "critical thinking", S "time management", S "adaptability",
     S "project management", S "collaboration", S "presentation"])]

/-- `ALL_SKILLS`: the taxonomy flattened in insertion order. -/
def ALL_SKILLS : List Str := (SKILLS_DB.map Prod.snd).flatten

/-- Character at an index, `none` past either end (regex "edge of text"). -/
def isWordOpt : Option Char → Bool
  | none => false
  | some c => isWordChar c

/-- Python regex `\b` at position `i` of `s`: exactly one of the adjacent
characters (previous, next) is a word character, the edges of the text
counting as non-word. -/
def boundaryAt (s : Str) (i : ℕ) : Bool :=
  isWordOpt (if i = 0 then none else s[i-1]?) != isWordOpt s[i]?

/-- The literal `pat` occurs in `s` starting at index `i`. -/
def occursAtB (pat s : Str) (i : ℕ) : Bool :=
  decide ((s.drop i).take pat.length = pat)

/-- A match of `\b re.escape(pat) \b` starting at index `i` of `s`. -/
def wbMatchAt (pat s : Str) (i : ℕ) : Bool :=
  occursAtB pat s i && boundaryAt s i && boundaryAt s (i + pat.length)

/-- `re.search(r"\b" + re.escape(pat) + r"\b", s)` succeeds. -/
def wbFound (pat s : Str) : Bool :=
  (List.range (s.length + 1)).any fun i => wbMatchAt pat s i

/-- Result shape of `_match_skills` (`{"matched": ..., "missing": ...}`). -/
structure SkillMatch where
  matched : List Str
  missing : List Str
deriving DecidableEq

/-- `_match_skills`: the taxonomy skills found (word-boundary anchored,
case-insensitively) in the job text, split into those also found in the
resume and those not, both lists deduplicated keeping first occurrences. -/
def matchSkills (resumeText jdText : Str) : SkillMatch :=
  let resumeLower := resumeText.map asciiLower
  let jdLower := jdText.map asciiLower
  let jdSkills := ALL_SKILLS.filter fun skill => wbFound skill jdLower
  { matched := pdedup (jdSkills.filter fun skill => wbFound skill resumeLower)
    missing := pdedup (jdSkills.filter fun skill => !wbFound skill resumeLower) }

/-- Result shape of `_keyword_overlap`. -/
structure KeywordOverlap where
  matched : List Str
  missing : List Str

/-- Python `sorted` on a list of strings: stable merge sort by the
lexicographic order on character sequences. -/
def sortLex (l : List Str) : List Str :=
  l.mergeSort fun a b => decide (a ≤ b)

/-- `_keyword_overlap`: compare the two top-keyword sets; report the
intersection and the difference as lexicographically sorted lists capped
at 20 entries (`sorted(jd_kws & resume_kws)[:20]` and the complement). -/
noncomputable def keywordOverlap (resumeText jdText : Str) : KeywordOverlap :=
  let jdKws := topKeywords jdText 40
  let resumeKws := topKeywords resumeText 60
  { matched := (sortLex ((pdedup jdKws).filter fun k => resumeKws.contains k)).take 20
    missing := (sortLex ((pdedup jdKws).filter fun k => !resumeKws.contains k)).take 20 }

/-- Character class `[\w.+-]` of the email pattern's local part. -/
def emailLocalChar (c : Char) : Bool :=
  isWordChar c || c = '.' || c = '+' || c = '-'

/-- Character class `[\w-]` of the email pattern's domain part. -/
def emailDomChar (c : Char) : Bool :=
  isWordChar c || c = '-'

/-- Character class `[a-z]` of the email pattern's final component. -/
def tldChar (c : Char) : Bool :=
  'a' ≤ c && c ≤ 'z'

/-- Every index of `[i, j)` holds a character of `s` satisfying `p`
(in particular `j ≤ s.length` when `i < j`). -/
def allRange (s : Str) (i j : ℕ) (p : Char → Bool) : Bool :=
  (List.range (j - i)).all fun d =>
    match s[i + d]? with
    | some c => p c
    | none => false

/-- `re.search(r"\b[\w.+-]+@[\w-]+\.[a-z]{2,}\b", s)` succeeds: some
position splits as local part, `@`, domain part, `.`, and a final run of
at least two `[a-z]` characters, with `\b` holding at both ends. -/
def emailFound (s : Str) : Bool :=
  (List.range s.length).any fun p1 =>
    s[p1]? = some '@' &&
    ((List.range p1).any fun p0 =>
      boundaryAt s p0 && allRange s p0 p1 emailLocalChar) &&
    ((List.range (s.length + 1)).any fun p2 =>
      p1 + 2 ≤ p2 && s[p2]? = some '.' && allRange s (p1 + 1) p2 emailDomChar &&
      ((List.range (s.length + 1)).any fun p3 =>
        p2 + 3 ≤ p3 && allRange s (p2 + 1) p3 tldChar && boundaryAt s p3))

/-- Character class `[\d\s()\-]` of the phone pattern. -/
def phoneClass (c : Char) : Bool :=
  c.isDigit || isSpaceChar c || c = '(' || c = ')' || c = '-'

/-- `re.search(r"\+?[\d\s()\-]{7,15}", s)` succeeds.  Since the leading
`\+?` may match the empty string, a match exists exactly when some run of
7 consecutive characters of the class exists (the `{7,15}` upper bound
never blocks existence); the same criterion realises the ATS checker's
`{7,14}` variant. -/
def phoneFound (s : Str) : Bool :=
  (List.range (s.length + 1)).any fun i => allRange s i (i + 7) phoneClass

/-- `re.search(r"\b(20\d{2}|19\d{2})\b", s)` succeeds. -/
def dateFound (s : Str) : Bool :=
  (List.range (s.length + 1)).any fun i =>
    boundaryAt s i && boundaryAt s (i + 4) &&
    (occursAtB (S "20") s i || occursAtB (S "19") s i) &&
    (match s[i + 2]? with | some c => c.isDigit | none => false) &&
    (match s[i + 3]? with | some c => c.isDigit | none => false)

/-- Python substring containment `needle in hay`. -/
def containsSub (needle hay : Str) : Bool :=
  (List.range (hay.length + 1)).any fun i => occursAtB needle hay i

/-- The section headings `_format_score` looks for. -/
def FORMAT_HEADINGS : List Str :=
  [S "experience", S "education", S "skills", S "summary", S "objective",
   S "projects", S "certifications", S "achievements"]

/-- The action verbs `_format_score` looks for. -/
def ACTION_VERBS : List Str :=
  [S "led", S "built", S "designed", S "managed", S "developed",
   S "implemented", S "improved", S "reduced", S "increased", S "achieved",
   S "created", S "delivered"]

/-- `_format_score`: the additive formatting heuristic, capped at 100. -/
def formatScore (resumeText : Str) : ℤ :=
  let lower := resumeText.map asciiLower
  let n := (splitWs resumeText).length
  let lengthPts : ℤ := if 300 ≤ n ∧ n ≤ 1200 then 25 else if 100 < n then 12 else 0
  let emailPts : ℤ := if emailFound lower then 15 else 0
  let phonePts : ℤ := if phoneFound resumeText then 10 else 0
  let found := (FORMAT_HEADINGS.filter fun h => containsSub h lower).length
  let headingPts : ℤ := min (found * 5 : ℤ) 30
  let datePts : ℤ := if dateFound resumeText then 10 else 0
  let verbPts : ℤ := if ACTION_VERBS.any fun v => containsSub v lower then 10 else 0
  min (lengthPts + emailPts + phonePts + headingPts + datePts + verbPts) 100

/-- `re.search(r"\|.+\|", s)` succeeds: two pipes at least two apart with
no newline strictly between them. -/
def pipeFound (s : Str) : Bool :=
  (List.range s.length).any fun i =>
    s[i]? = some '|' &&
    ((List.range (s.length - i)).any fun d =>
      2 ≤ d && s[i + d]? = some '|' && allRange s (i + 1) (i + d) fun c => c ≠ '\n')

/-- The decorative bullet glyphs `_ats_check` warns about. -/
def bulletChars : List Char := ['★', '✓', '✔', '➤', '►', '●', '▪', '▸']

/-- The word-bounded section alternation of `_ats_check`'s last test. -/
def KEY_SECTION_WORDS : List Str :=
  [S "experience", S "work", S "project", S "skill"]

/-- `_ats_check`: the ordered, independent ATS warnings. -/
def atsCheck (resumeText : Str) : List Str :=
  let lower := resumeText.map asciiLower
  (if pipeFound resumeText then
    [S "Avoid tables – ATS parsers may skip content inside them."] else []) ++
  (if resumeText.any fun c => bulletChars.contains c then
    [S "Replace special bullet characters with plain hyphens or asterisks."] else []) ++
  (if !emailFound resumeText then
    [S "No email address detected – make sure your contact info is in plain text."] else []) ++
  (if !phoneFound resumeText then
    [S "No phone number detected – ensure contact details are ATS-readable."] else []) ++
  (if (splitWs resumeText).length < 150 then
    [S "Resume seems very short. Consider adding more detail to relevant sections."] else []) ++
  (if !(KEY_SECTION_WORDS.any fun w => wbFound w lower) then
    [S "Key sections (Experience, Skills, Projects) not detected. Use standard headings."] else [])

/-- The module-level `SUGGESTIONS_BANK`, transcribed from the source. -/
def SUGGESTIONS_BANK : List Str :=
  [S "Add quantifiable achievements (e.g., 'Increased sales by 30%').",
   S "Use strong action verbs: led, built, designed, optimized, reduced.",
   S "Include a concise professional summary at the top.",
   S "Tailor the Skills section to match the job description keywords.",
   S "Ensure consistent date formatting throughout (e.g., Jan 2022 – Mar 2024).",
   S "Keep your resume to 1–2 pages for most roles.",
   S "Spell out acronyms at least once (e.g., 'Natural Language Processing (NLP)').",
   S "Add links to your GitHub, LinkedIn, or portfolio.",
   S "Use a clean single-column layout for better ATS compatibility.",
   S "Proofread carefully — typos can cost you the interview.",
   S "Highlight the impact of your work, not just the tasks performed.",
   S "List your most relevant experience first."]

/-- Modelled from the spec: §4.8 adds "up to 3 items randomly sampled
without replacement from a fixed advice bank using the score as the random
seed" (`random.sample(SUGGESTIONS_BANK, k=min(3, len(SUGGESTIONS_BANK)))`
after `random.seed(score)`).  The Mersenne-Twister draw itself is outside
the source's algorithmic content; it is modelled as a deterministic choice
of `min 3 (length bank)` bank entries — here the first three — on which no
claim depends. -/
def randomSample (_score : ℤ) : List Str :=
  SUGGESTIONS_BANK.take (min 3 SUGGESTIONS_BANK.length)

/-- `_generate_suggestions`: targeted hints, one score-band message, the
sampled bank advice, truncated to 8 entries. -/
def generateSuggestions (score : ℤ) (missingSkills missingKeywords : List Str) :
    List Str :=
  let skillsHint := if missingSkills ≠ [] then
      [S "Add these missing skills if you have them: " ++
        List.intercalate (S ", ") (missingSkills.take 5) ++ S "."] else []
  let kwHint := if missingKeywords ≠ [] then
      [S "Incorporate these job-description keywords naturally: " ++
        List.intercalate (S ", ") (missingKeywords.take 5) ++ S "."] else []
  let bandMsg := if score < 50 then
      [S "Your resume needs significant tailoring for this role. Review the JD carefully."]
    else if score < 70 then
      [S "Good foundation! Focus on keyword alignment and quantified achievements."]
    else
      [S "Strong match! Fine-tune language to mirror the exact phrasing in the JD."]
  (skillsHint ++ kwHint ++ bandMsg ++ randomSample score).take 8

/-- Python `int(x)` on a float: truncation toward zero. -/
def pyIntQ (q : ℚ) : ℤ := if 0 ≤ q then ⌊q⌋ else ⌈q⌉

/-- Python `int(x)` on a float: truncation toward zero (real-valued). -/
noncomputable def pyIntR (x : ℝ) : ℤ := if 0 ≤ x then ⌊x⌋ else ⌈x⌉

/-- Step 1 of `analyze_resume`: `min(int(raw_sim * 200), 100)`. -/
noncomputable def keywordScore (resumeText jdText : Str) : ℤ :=
  min (pyIntR (similarity resumeText jdText * 200)) 100

/-- Step 3 of `analyze_resume`: `int(matched / jd_skill_count * 100)` when
the job mentions at least one taxonomy skill, else the fixed default 70. -/
def skillsScoreOf (skillsData : SkillMatch) : ℤ :=
  let jdSkillCount := skillsData.matched.length + skillsData.missing.length
  if 0 < jdSkillCount then
    pyIntQ ((skillsData.matched.length : ℚ) / (jdSkillCount : ℚ) * 100)
  else 70

/-- The result dictionary of `analyze_resume`. -/
structure AnalysisResult where
  score : ℤ
  keyword_score : ℤ
  skills_score : ℤ
  format_score : ℤ
  matched_keywords : List Str
  missing_keywords : List Str
  matched_skills : List Str
  missing_skills : List Str
  suggestions : List Str
  ats_issues : List Str

/-- `analyze_resume`: the full pipeline. -/
noncomputable def analyzeResume (resumeText jobDescription : Str) : AnalysisResult :=
  let keyword_score := keywordScore resumeText jobDescription
  let kwData := keywordOverlap resumeText jobDescription
  let skillsData := matchSkills resumeText jobDescription
  let skills_score := skillsScoreOf skillsData
  let format_score := formatScore resumeText
  let weighted := pyIntQ ((keyword_score : ℚ) * 0.60 + (skills_score : ℚ) * 0.20 +
    (format_score : ℚ) * 0.20)
  let final_score := max 10 (min weighted 100)
  { score := final_score
    keyword_score := keyword_score
    skills_score := skills_score
    format_score := format_score
    matched_keywords := kwData.matched
    missing_keywords := kwData.missing
    matched_skills := skillsData.matched
    missing_skills := skillsData.missing
    suggestions := generateSuggestions final_score skillsData.missing kwData.missing
    ats_issues := atsCheck resumeText }

/-- Concrete resume text (five `apple`, one `berry`) used as a refuting
input: its TF-IDF cosine against `jobEx` is exactly `5/13`. -/
def resumeEx : Str := S "apple apple apple apple apple berry"

/-- Concrete job text (one `apple`, five `berry`) paired with `resumeEx`. -/
def jobEx : Str := S "apple berry berry berry berry berry"

/-- Concrete resume text for the skills-score rounding counterexample. -/
def resumeSk : Str := S "python java"

/-- Concrete job text requiring three taxonomy skills, two of them matched
by `resumeSk`. -/
def jobSk : Str := S "python java rust"

/-! ### Library lemmas about the embedded text utilities -/

theorem mem_pdedupAux {α : Type} [DecidableEq α] {l : List α} :
    ∀ {seen : List α} {x : α}, x ∈ pdedupAux l seen ↔ x ∈ l ∧ x ∉ seen := by
  induction l with
  | nil => intro seen x; simp [pdedupAux]
  | cons a t ih =>
    intro seen x
    by_cases h : a ∈ seen
    · rw [pdedupAux, if_pos h, ih]
      constructor
      · rintro ⟨hx, hs⟩; exact ⟨List.mem_cons_of_mem a hx, hs⟩
      · rintro ⟨hx, hs⟩
        rcases List.mem_cons.mp hx with rfl | hx
        · exact absurd h hs
        · exact ⟨hx, hs⟩
    · rw [pdedupAux, if_neg h]
      constructor
      · intro hx
        rcases List.mem_cons.mp hx with rfl | hx
        · exact ⟨List.mem_cons_self _ _, h⟩
        · obtain ⟨h1, h2⟩ := ih.mp hx
          refine ⟨List.mem_cons_of_mem a h1, fun hs => h2 (List.mem_cons_of_mem a hs)⟩
      · rintro ⟨hx, hs⟩
        rcases List.mem_cons.mp hx with rfl | hx
        · exact List.mem_cons_self _ _
        · by_cases hxa : x = a
          · exact hxa ▸ List.mem_cons_self _ _
          · refine List.mem_cons_of_mem a (ih.mpr ⟨hx, fun hm => ?_⟩)
            rcases List.mem_cons.mp hm with h1 | h1
            · exact hxa h1
            · exact hs h1

theorem mem_pdedup {α : Type} [DecidableEq α] {l : List α} {x : α} :
    x ∈ pdedup l ↔ x ∈ l := by
  rw [pdedup, mem_pdedupAux]; simp

theorem pdedupAux_sublist {α : Type} [DecidableEq α] (l : List α) :
    ∀ seen : List α, List.Sublist (pdedupAux l seen) l := by
  induction l with
  | nil => intro seen; simp [pdedupAux]
  | cons a t ih =>
    intro seen
    by_cases h : a ∈ seen
    · rw [pdedupAux, if_pos h]
      exact (ih seen).cons a
    · rw [pdedupAux, if_neg h]
      exact (ih (a :: seen)).cons₂ a

theorem pdedup_sublist {α : Type} [DecidableEq α] (l : List α) : List.Sublist (pdedup l) l :=
  pdedupAux_sublist l []

theorem pdedupAux_nodup {α : Type} [DecidableEq α] (l : List α) :
    ∀ seen : List α, (pdedupAux l seen).Nodup := by
  induction l with
  | nil => intro seen; simp [pdedupAux]
  | cons a t ih =>
    intro seen
    by_cases h : a ∈ seen
    · rw [pdedupAux, if_pos h]; exact ih seen
    · rw [pdedupAux, if_neg h]
      refine List.nodup_cons.mpr ⟨fun hm => ?_, ih (a :: seen)⟩
      exact (mem_pdedupAux.mp hm).2 (List.mem_cons_self _ _)

theorem pdedup_nodup {α : Type} [DecidableEq α] (l : List α) : (pdedup l).Nodup :=
  pdedupAux_nodup l []

theorem splitWs_cons (c : Char) (t : Str) :
    splitWs (c :: t) =
      if isSpaceChar c then splitWs t
      else
        match t, splitWs t with
        | [], _ => [[c]]
        | d :: _, r =>
          if isSpaceChar d then [c] :: r
          else
            match r with
            | [] => [[c]]
            | w :: ws => (c :: w) :: ws := rfl

theorem splitWs_mem (l : Str) :
    ∀ w ∈ splitWs l, w ≠ [] ∧ ∀ c ∈ w, c ∈ l ∧ isSpaceChar c = false := by
  induction l with
  | nil => intro w hw; simp [splitWs] at hw
  | cons a t ih =>
    intro w hw
    by_cases ha : isSpaceChar a
    · rw [splitWs_cons, if_pos ha] at hw
      obtain ⟨h1, h2⟩ := ih w hw
      exact ⟨h1, fun c hc => ⟨List.mem_cons_of_mem a (h2 c hc).1, (h2 c hc).2⟩⟩
    · rw [splitWs_cons, if_neg ha] at hw
      rcases t with _ | ⟨d, t'⟩
      · simp only [List.mem_singleton] at hw
        subst hw
        refine ⟨by simp, fun c hc => ?_⟩
        rw [List.mem_singleton] at hc
        subst hc
        exact ⟨List.mem_cons_self _ _, by simpa using ha⟩
      · by_cases hd : isSpaceChar d
        · simp only [hd, if_true] at hw
          rcases List.mem_cons.mp hw with rfl | hw
          · refine ⟨by simp, fun c hc => ?_⟩
            rw [List.mem_singleton] at hc
            subst hc
            exact ⟨List.mem_cons_self _ _, by simpa using ha⟩
          · obtain ⟨h1, h2⟩ := ih w hw
            exact ⟨h1, fun c hc => ⟨List.mem_cons_of_mem a (h2 c hc).1, (h2 c hc).2⟩⟩
        · rcases hr : splitWs (d :: t') with _ | ⟨w', ws⟩
          · rw [hr] at hw
            simp only [hd] at hw
            rw [if_neg (by simp), List.mem_singleton] at hw
            subst hw
            refine ⟨by simp, fun c hc => ?_⟩
            rw [List.mem_singleton] at hc
            subst hc
            exact ⟨List.mem_cons_self _ _, by simpa using ha⟩
          · rw [hr] at hw
            simp only [hd] at hw
            rw [if_neg (by simp), List.mem_cons] at hw
            rcases hw with rfl | hw
            · have hw' := ih w' (hr ▸ List.mem_cons_self w' ws)
              refine ⟨by simp, fun c hc => ?_⟩
              rcases List.mem_cons.mp hc with rfl | hc
              · exact ⟨List.mem_cons_self _ _, by simpa using ha⟩
              · exact ⟨List.mem_cons_of_mem a ((hw'.2) c hc).1, ((hw'.2) c hc).2⟩
            · have hw' := ih w (hr ▸ List.mem_cons_of_mem w' hw)
              exact ⟨hw'.1, fun c hc =>
                ⟨List.mem_cons_of_mem a ((hw'.2) c hc).1, ((hw'.2) c hc).2⟩⟩

theorem cleanChar_of_not_space {c : Char} (h : isSpaceChar (cleanChar c) = false) :
    keepChar (cleanChar c) = true := by
  rw [cleanChar] at h ⊢
  by_cases hc : keepChar c || isSpaceChar c
  · rw [if_pos hc] at h ⊢
    rcases Bool.or_eq_true_iff.mp hc with h1 | h1
    · exact h1
    · rw [h1] at h; exact absurd h (by simp)
  · rw [if_neg hc] at h
    exact absurd h (by simp [isSpaceChar])

/-- **C5.** For every input text, every token produced by `tokenize` consists
only of characters from `[a-z0-9]`, has length strictly greater than 2, and is
not a stop word; moreover `tokenize` of the empty string is the empty sequence.
(Determinism is immediate: `tokenize` is embedded as a pure function, so
identical inputs give identical outputs definitionally.) -/
theorem tokenize_tokens_spec (t : Str) (w : Str) (hw : w ∈ tokenize t) :
    (∀ c ∈ w, keepChar c = true) ∧ 2 < w.length ∧ w ∉ STOP_WORDS ∧
      tokenize (S "") = [] := by
  rw [tokenize] at hw
  simp only [List.mem_filter, Bool.and_eq_true, decide_eq_true_eq,
    Bool.not_eq_true'] at hw
  rw [show ∀ (l : List Str) (x : Str), l.contains x = false ↔ x ∉ l by
    intro l x; simp] at hw
  obtain ⟨hmem, hlen, hstop⟩ := hw
  refine ⟨fun c hc => ?_, hlen, hstop, by decide⟩
  obtain ⟨-, hchars⟩ := splitWs_mem _ w hmem
  obtain ⟨hin, hns⟩ := hchars c hc
  obtain ⟨d, -, rfl⟩ := List.mem_map.mp hin
  exact cleanChar_of_not_space hns

/-- Witness for C5 at the concrete text `"Hello, World!"` and its first
token `"hello"`. -/
theorem tokenize_tokens_spec_witness :
    S "hello" ∈ tokenize (S "Hello, World!") ∧
      ((∀ c ∈ S "hello", keepChar c = true) ∧ 2 < (S "hello").length ∧
        S "hello" ∉ STOP_WORDS ∧ tokenize (S "") = []) :=
  ⟨by decide, tokenize_tokens_spec (S "Hello, World!") (S "hello") (by decide)⟩

/-! ### The cosine comparator -/

theorem sumSq_nonneg (a : List ℝ) : 0 ≤ (a.map fun x => x * x).sum :=
  List.sum_nonneg fun x hx => by
    obtain ⟨y, -, rfl⟩ := List.mem_map.mp hx
    exact mul_self_nonneg y

theorem dot_sq_le_sumSq_mul (a : List ℝ) :
    ∀ b : List ℝ, ((List.zipWith (fun x y => x * y) a b).sum) ^ 2 ≤
      (a.map fun x => x * x).sum * (b.map fun x => x * x).sum := by
  induction a with
  | nil =>
    intro b
    simp
  | cons x a' ih =>
    intro b
    rcases b with _ | ⟨y, b'⟩
    · simp
    · simp only [List.zipWith_cons_cons, List.map_cons, List.sum_cons]
      have h1 := ih b'
      have hA := sumSq_nonneg a'
      have hB := sumSq_nonneg b'
      set D := (List.zipWith (fun x y => x * y) a' b').sum with hD
      set A := (a'.map fun x => x * x).sum with hA'
      set B := (b'.map fun x => x * x).sum with hB'
      rcases eq_or_lt_of_le hB with hB0 | hBpos
      · have hDz : D = 0 := by nlinarith [sq_nonneg D]
        rw [hDz]
        nlinarith [mul_nonneg hA (sq_nonneg y), sq_nonneg (x * y)]
      · nlinarith [sq_nonneg (x * B - y * D),
          mul_nonneg (add_nonneg (sq_nonneg y) hB) (sub_nonneg.mpr h1)]

theorem zipWith_mul_sum_nonneg :
    ∀ a b : List ℝ, (∀ x ∈ a, 0 ≤ x) → (∀ x ∈ b, 0 ≤ x) →
      0 ≤ (List.zipWith (fun x y => x * y) a b).sum := by
  intro a
  induction a with
  | nil => intro b _ _; simp
  | cons x a' ih =>
    intro b ha hb
    rcases b with _ | ⟨y, b'⟩
    · simp
    · simp only [List.zipWith_cons_cons, List.sum_cons]
      refine add_nonneg (mul_nonneg (ha x (List.mem_cons_self _ _))
        (hb y (List.mem_cons_self _ _))) (ih b' ?_ ?_)
      · exact fun z hz => ha z (List.mem_cons_of_mem x hz)
      · exact fun z hz => hb z (List.mem_cons_of_mem y hz)

theorem zipWith_mul_self (a : List ℝ) :
    List.zipWith (fun x y => x * y) a a = a.map fun x => x * x := by
  induction a with
  | nil => simp
  | cons x a' ih => simp [ih]

theorem cosineSimilarity_nonneg {a b : List ℝ}
    (ha : ∀ x ∈ a, 0 ≤ x) (hb : ∀ x ∈ b, 0 ≤ x) :
    0 ≤ cosineSimilarity a b := by
  rw [cosineSimilarity]
  by_cases h : Real.sqrt ((a.map fun x => x * x).sum) = 0 ∨
      Real.sqrt ((b.map fun x => x * x).sum) = 0
  · rw [if_pos h]
  · rw [if_neg h]
    exact div_nonneg (zipWith_mul_sum_nonneg a b ha hb)
      (mul_nonneg (Real.sqrt_nonneg _) (Real.sqrt_nonneg _))

theorem cosineSimilarity_le_one (a b : List ℝ) : cosineSimilarity a b ≤ 1 := by
  rw [cosineSimilarity]
  by_cases h : Real.sqrt ((a.map fun x => x * x).sum) = 0 ∨
      Real.sqrt ((b.map fun x => x * x).sum) = 0
  · rw [if_pos h]; norm_num
  · rw [if_neg h]
    push_neg at h
    have hApos : 0 < (a.map fun x => x * x).sum := by
      rcases lt_or_le 0 ((a.map fun x => x * x).sum) with hp | hp
      · exact hp
      · exact absurd (Real.sqrt_eq_zero'.mpr hp) h.1
    have hBpos : 0 < (b.map fun x => x * x).sum := by
      rcases lt_or_le 0 ((b.map fun x => x * x).sum) with hp | hp
      · exact hp
      · exact absurd (Real.sqrt_eq_zero'.mpr hp) h.2
    rw [div_le_one (mul_pos (Real.sqrt_pos.mpr hApos) (Real.sqrt_pos.mpr hBpos))]
    calc (List.zipWith (fun x y => x * y) a b).sum
        ≤ |(List.zipWith (fun x y => x * y) a b).sum| := le_abs_self _
      _ = Real.sqrt (((List.zipWith (fun x y => x * y) a b).sum) ^ 2) :=
          (Real.sqrt_sq_eq_abs _).symm
      _ ≤ Real.sqrt ((a.map fun x => x * x).sum * (b.map fun x => x * x).sum) :=
          Real.sqrt_le_sqrt (dot_sq_le_sumSq_mul a b)
      _ = Real.sqrt ((a.map fun x => x * x).sum) *
            Real.sqrt ((b.map fun x => x * x).sum) := Real.sqrt_mul hApos.le _

theorem cosineSimilarity_self {a : List ℝ} (h : ∃ x ∈ a, x ≠ 0) :
    cosineSimilarity a a = 1 := by
  obtain ⟨x, hx, hxne⟩ := h
  have hxx : x * x ∈ a.map fun x => x * x := List.mem_map.mpr ⟨x, hx, rfl⟩
  have hApos : 0 < (a.map fun x => x * x).sum :=
    lt_of_lt_of_le (mul_self_pos.mpr hxne)
      (List.single_le_sum (fun y hy => by
        obtain ⟨z, -, rfl⟩ := List.mem_map.mp hy; exact mul_self_nonneg z) _ hxx)
  rw [cosineSimilarity]
  rw [if_neg (by
    push_neg
    constructor <;> exact ne_of_gt (Real.sqrt_pos.mpr hApos))]
  rw [zipWith_mul_self, Real.mul_self_sqrt hApos.le,
    div_self (ne_of_gt hApos)]

/-- **C4.** The cosine comparator on equal-length vectors with nonnegative
entries (the shape produced by the TF-IDF vectorizer) returns a value in
`[0, 1]`; whenever either magnitude is exactly `0` the result is exactly `0`
(total function, no division by zero); and on any non-zero such vector `v`,
`cosine(v, v) = 1`. -/
theorem cosineSimilarity_contract (a b : List ℝ) (_hlen : a.length = b.length)
    (ha : ∀ x ∈ a, 0 ≤ x) (hb : ∀ x ∈ b, 0 ≤ x) :
    (0 ≤ cosineSimilarity a b ∧ cosineSimilarity a b ≤ 1) ∧
    ((Real.sqrt ((a.map fun x => x * x).sum) = 0 ∨
      Real.sqrt ((b.map fun x => x * x).sum) = 0) → cosineSimilarity a b = 0) ∧
    ((∃ x ∈ a, x ≠ 0) → cosineSimilarity a a = 1) := by
  refine ⟨⟨cosineSimilarity_nonneg ha hb, cosineSimilarity_le_one a b⟩, ?_, ?_⟩
  · intro h
    rw [cosineSimilarity, if_pos h]
  · exact fun h => cosineSimilarity_self h

/-- Witness for C4 at the concrete vectors `[1, 0]` and `[0, 1]`. -/
theorem cosineSimilarity_contract_witness :
    (([(1 : ℝ), 0].length = [(0 : ℝ), 1].length) ∧
      (∀ x ∈ [(1 : ℝ), 0], 0 ≤ x) ∧ (∀ x ∈ [(0 : ℝ), 1], 0 ≤ x) ∧
      (∃ x ∈ [(1 : ℝ), 0], x ≠ 0)) ∧
    ((0 ≤ cosineSimilarity [(1 : ℝ), 0] [0, 1] ∧
        cosineSimilarity [(1 : ℝ), 0] [0, 1] ≤ 1) ∧
      ((Real.sqrt (([(1 : ℝ), 0].map fun x => x * x).sum) = 0 ∨
        Real.sqrt (([(0 : ℝ), 1].map fun x => x * x).sum) = 0) →
          cosineSimilarity [(1 : ℝ), 0] [0, 1] = 0) ∧
      ((∃ x ∈ [(1 : ℝ), 0], x ≠ 0) → cosineSimilarity [(1 : ℝ), 0] [(1 : ℝ), 0] = 1)) := by
  have hhyp : (∀ x ∈ [(1 : ℝ), 0], 0 ≤ x) ∧ (∀ x ∈ [(0 : ℝ), 1], 0 ≤ x) ∧
      (∃ x ∈ [(1 : ℝ), 0], x ≠ 0) := by
    refine ⟨?_, ?_, ⟨1, by simp, one_ne_zero⟩⟩ <;>
      · intro x hx
        rcases List.mem_cons.mp hx with rfl | hx
        · simp
        · simp only [List.mem_singleton] at hx
          simp [hx]
  exact ⟨⟨rfl, hhyp⟩, cosineSimilarity_contract [1, 0] [0, 1] rfl hhyp.1 hhyp.2.1⟩

/-! ### TF-IDF building blocks -/

theorem termFreq_nonneg (tokens : List Str) (t : Str) : 0 ≤ termFreq tokens t := by
  rw [termFreq]
  by_cases h : tokens = []
  · rw [if_pos h]
  · rw [if_neg h]
    exact div_nonneg (by positivity) (by positivity)

theorem termFreq_pos {tokens : List Str} {t : Str} (h : t ∈ tokens) :
    0 < termFreq tokens t := by
  rw [termFreq, if_neg (List.ne_nil_of_mem h)]
  refine div_pos ?_ ?_
  · exact_mod_cast List.count_pos_iff.mpr h
  · exact_mod_cast List.length_pos_of_mem h

theorem idf_arg_ge_one (term : Str) (docs : List (List Str)) :
    (1 : ℝ) ≤ (1 + docs.length) /
      (1 + (docs.filter fun doc => doc.contains term).length) := by
  rw [one_le_div (by positivity)]
  have h := List.length_filter_le (fun doc => doc.contains term) docs
  have h2 : (((docs.filter fun doc => doc.contains term).length : ℕ) : ℝ) ≤
      (docs.length : ℝ) := Nat.cast_le.mpr h
  linarith

theorem idf_nonneg (term : Str) (docs : List (List Str)) : 0 ≤ idf term docs := by
  rw [idf]
  by_cases h : ((docs.filter fun doc => doc.contains term).length) = 0
  · rw [if_pos h]
  · rw [if_neg h]
    linarith [Real.log_nonneg (idf_arg_ge_one term docs)]

theorem idf_pos {term : Str} {docs : List (List Str)}
    (h : ((docs.filter fun doc => doc.contains term).length) ≠ 0) :
    0 < idf term docs := by
  rw [idf, if_neg h]
  linarith [Real.log_nonneg (idf_arg_ge_one term docs)]

theorem tfidfVector_entry_nonneg (tokens vocab : List Str) (docs : List (List Str)) :
    ∀ x ∈ tfidfVector tokens vocab docs, 0 ≤ x := by
  intro x hx
  rw [tfidfVector] at hx
  obtain ⟨term, -, rfl⟩ := List.mem_map.mp hx
  exact mul_nonneg (by exact_mod_cast termFreq_nonneg tokens term) (idf_nonneg term docs)

theorem similarity_nonneg (a b : Str) : 0 ≤ similarity a b := by
  rw [similarity]
  by_cases h : tokenize a = [] ∨ tokenize b = []
  · rw [if_pos h]
  · rw [if_neg h]
    exact cosineSimilarity_nonneg (tfidfVector_entry_nonneg _ _ _)
      (tfidfVector_entry_nonneg _ _ _)

theorem similarity_self_eq_one {t : Str} (h : tokenize t ≠ []) :
    similarity t t = 1 := by
  rw [similarity, if_neg (by simp [h])]
  obtain ⟨w, tok', htok⟩ := List.exists_cons_of_ne_nil h
  have hw : w ∈ tokenize t := htok ▸ List.mem_cons_self w tok'
  refine cosineSimilarity_self ⟨(termFreq (tokenize t) w : ℝ) * idf w [tokenize t, tokenize t], ?_, ?_⟩
  · rw [tfidfVector]
    exact List.mem_map.mpr ⟨w, mem_pdedup.mpr (List.mem_append.mpr (Or.inl hw)), rfl⟩
  · have hcont : (tokenize t).contains w = true := by simp [hw]
    have hfilter : (([tokenize t, tokenize t].filter fun doc => doc.contains w).length) ≠ 0 := by
      rw [List.filter_cons, List.filter_cons, List.filter_nil]
      simp [hw]
    exact ne_of_gt (mul_pos (by exact_mod_cast termFreq_pos hw) (idf_pos hfilter))

theorem keywordScore_eq_floor (r j : Str) :
    keywordScore r j = min ⌊similarity r j * 200⌋ 100 := by
  rw [keywordScore, pyIntR,
    if_pos (mul_nonneg (similarity_nonneg r j) (by norm_num))]

theorem keywordScore_nonneg (r j : Str) : 0 ≤ keywordScore r j := by
  rw [keywordScore_eq_floor]
  refine le_min ?_ (by norm_num)
  exact Int.floor_nonneg.mpr (mul_nonneg (similarity_nonneg r j) (by norm_num))

theorem keywordScore_le (r j : Str) : keywordScore r j ≤ 100 := by
  rw [keywordScore_eq_floor]
  exact min_le_right _ _

theorem keywordScore_self {t : Str} (h : tokenize t ≠ []) :
    keywordScore t t = 100 := by
  rw [keywordScore, similarity_self_eq_one h]
  norm_num [pyIntR]

/-! ### Score bounds and projections of `analyzeResume` -/

theorem skillsScoreOf_nonneg (d : SkillMatch) : 0 ≤ skillsScoreOf d := by
  rw [skillsScoreOf]
  by_cases h : 0 < d.matched.length + d.missing.length
  · rw [if_pos h, pyIntQ, if_pos (by positivity)]
    exact Int.floor_nonneg.mpr (by positivity)
  · rw [if_neg h]; norm_num

theorem skillsScoreOf_le (d : SkillMatch) : skillsScoreOf d ≤ 100 := by
  rw [skillsScoreOf]
  by_cases h : 0 < d.matched.length + d.missing.length
  · rw [if_pos h, pyIntQ, if_pos (by positivity)]
    have hq : ((d.matched.length : ℚ) / (d.matched.length + d.missing.length : ℕ) * 100) ≤ 100 := by
      have hle : (d.matched.length : ℚ) ≤ ((d.matched.length + d.missing.length : ℕ) : ℚ) := by
        exact_mod_cast Nat.le_add_right _ _
      have hpos : (0 : ℚ) < ((d.matched.length + d.missing.length : ℕ) : ℚ) := by
        exact_mod_cast h
      nlinarith [div_le_one_of_le₀ hle hpos.le]
    calc ⌊(d.matched.length : ℚ) / (d.matched.length + d.missing.length : ℕ) * 100⌋
        ≤ ⌊(100 : ℚ)⌋ := Int.floor_le_floor hq
      _ = 100 := by norm_num
  · rw [if_neg h]; norm_num

theorem formatScore_nonneg (r : Str) : 0 ≤ formatScore r := by
  rw [formatScore]
  refine le_min ?_ (by norm_num)
  have hmin : (0 : ℤ) ≤ min (((FORMAT_HEADINGS.filter fun h => containsSub h
      (r.map asciiLower)).length : ℤ) * 5) 30 :=
    le_min (by positivity) (by norm_num)
  split_ifs <;> linarith

theorem formatScore_le (r : Str) : formatScore r ≤ 100 := min_le_right _ _

theorem analyzeResume_keyword_score (r j : Str) :
    (analyzeResume r j).keyword_score = keywordScore r j := rfl

theorem analyzeResume_skills_score (r j : Str) :
    (analyzeResume r j).skills_score = skillsScoreOf (matchSkills r j) := rfl

theorem analyzeResume_format_score (r j : Str) :
    (analyzeResume r j).format_score = formatScore r := rfl

theorem analyzeResume_score (r j : Str) :
    (analyzeResume r j).score =
      max 10 (min (pyIntQ ((keywordScore r j : ℚ) * 0.60 +
        (skillsScoreOf (matchSkills r j) : ℚ) * 0.20 +
        (formatScore r : ℚ) * 0.20)) 100) := rfl

theorem analyzeResume_matched_keywords (r j : Str) :
    (analyzeResume r j).matched_keywords = (keywordOverlap r j).matched := rfl

theorem analyzeResume_missing_keywords (r j : Str) :
    (analyzeResume r j).missing_keywords = (keywordOverlap r j).missing := rfl

theorem analyzeResume_matched_skills (r j : Str) :
    (analyzeResume r j).matched_skills = (matchSkills r j).matched := rfl

theorem analyzeResume_missing_skills (r j : Str) :
    (analyzeResume r j).missing_skills = (matchSkills r j).missing := rfl

theorem analyzeResume_suggestions (r j : Str) :
    (analyzeResume r j).suggestions =
      generateSuggestions (analyzeResume r j).score (matchSkills r j).missing
        (keywordOverlap r j).missing := rfl

/-! ### Concrete evaluations -/

theorem similarity_resumeEx_jobEx : similarity resumeEx jobEx = 5 / 13 := by
  have ht1 : tokenize resumeEx =
      [S "apple", S "apple", S "apple", S "apple", S "apple", S "berry"] := by decide
  have ht2 : tokenize jobEx =
      [S "apple", S "berry", S "berry", S "berry", S "berry", S "berry"] := by decide
  rw [similarity, ht1, ht2]
  rw [if_neg (by simp)]
  rw [show pdedup ([S "apple", S "apple", S "apple", S "apple", S "apple", S "berry"] ++
      [S "apple", S "berry", S "berry", S "berry", S "berry", S "berry"]) =
      [S "apple", S "berry"] from by decide]
  have htfa : termFreq [S "apple", S "apple", S "apple", S "apple", S "apple", S "berry"]
      (S "apple") = 5 / 6 := by
    rw [termFreq, if_neg (by decide)]
    rw [show List.count (S "apple")
      [S "apple", S "apple", S "apple", S "apple", S "apple", S "berry"] = 5 from by decide]
    norm_num
  have htfb : termFreq [S "apple", S "apple", S "apple", S "apple", S "apple", S "berry"]
      (S "berry") = 1 / 6 := by
    rw [termFreq, if_neg (by decide)]
    rw [show List.count (S "berry")
      [S "apple", S "apple", S "apple", S "apple", S "apple", S "berry"] = 1 from by decide]
    norm_num
  have htfc : termFreq [S "apple", S "berry", S "berry", S "berry", S "berry", S "berry"]
      (S "apple") = 1 / 6 := by
    rw [termFreq, if_neg (by decide)]
    rw [show List.count (S "apple")
      [S "apple", S "berry", S "berry", S "berry", S "berry", S "berry"] = 1 from by decide]
    norm_num
  have htfd : termFreq [S "apple", S "berry", S "berry", S "berry", S "berry", S "berry"]
      (S "berry") = 5 / 6 := by
    rw [termFreq, if_neg (by decide)]
    rw [show List.count (S "berry")
      [S "apple", S "berry", S "berry", S "berry", S "berry", S "berry"] = 5 from by decide]
    norm_num
  have hidfa : idf (S "apple")
      [[S "apple", S "apple", S "apple", S "apple", S "apple", S "berry"],
       [S "apple", S "berry", S "berry", S "berry", S "berry", S "berry"]] = 1 := by
    rw [idf]
    rw [show (([[S "apple", S "apple", S "apple", S "apple", S "apple", S "berry"],
       [S "apple", S "berry", S "berry", S "berry", S "berry", S "berry"]].filter
        fun doc => doc.contains (S "apple")).length) = 2 from by decide]
    rw [if_neg (by norm_num)]
    norm_num [Real.log_one]
  have hidfb : idf (S "berry")
      [[S "apple", S "apple", S "apple", S "apple", S "apple", S "berry"],
       [S "apple", S "berry", S "berry", S "berry", S "berry", S "berry"]] = 1 := by
    rw [idf]
    rw [show (([[S "apple", S "apple", S "apple", S "apple", S "apple", S "berry"],
       [S "apple", S "berry", S "berry", S "berry", S "berry", S "berry"]].filter
        fun doc => doc.contains (S "berry")).length) = 2 from by decide]
    rw [if_neg (by norm_num)]
    norm_num [Real.log_one]
  simp only [tfidfVector, List.map_cons, List.map_nil]
  rw [htfa, htfb, htfc, htfd, hidfa, hidfb]
  push_cast
  norm_num
  rw [cosineSimilarity]
  simp only [List.zipWith_cons_cons, List.zipWith_nil, List.map_cons, List.map_nil,
    List.sum_cons, List.sum_nil]
  rw [if_neg (not_or.mpr ⟨Real.sqrt_ne_zero'.mpr (by norm_num),
    Real.sqrt_ne_zero'.mpr (by norm_num)⟩)]
  rw [show ((5 : ℝ)/6 * (5/6) + (1/6 * (1/6) + 0)) = 13/18 by norm_num,
    show ((1 : ℝ)/6 * (1/6) + (5/6 * (5/6) + 0)) = 13/18 by norm_num,
    Real.mul_self_sqrt (by norm_num : (0 : ℝ) ≤ 13/18)]
  norm_num

theorem keywordScore_resumeEx_jobEx : keywordScore resumeEx jobEx = 76 := by
  rw [keywordScore, similarity_resumeEx_jobEx]
  norm_num [pyIntR]

theorem matchSkills_resumeEx_jobEx : matchSkills resumeEx jobEx = ⟨[], []⟩ := by decide

theorem skillsScoreOf_resumeEx_jobEx :
    skillsScoreOf (matchSkills resumeEx jobEx) = 70 := by
  rw [matchSkills_resumeEx_jobEx]
  norm_num [skillsScoreOf]

theorem formatScore_resumeEx : formatScore resumeEx = 0 := by decide

theorem score_resumeEx_jobEx : (analyzeResume resumeEx jobEx).score = 59 := by
  rw [analyzeResume_score, keywordScore_resumeEx_jobEx, skillsScoreOf_resumeEx_jobEx,
    formatScore_resumeEx]
  norm_num [pyIntQ]

/-! ### Claims C1, C2, C3, C7 -/

/-- **C1 (counterexample).** At `resumeEx`/`jobEx` the sub-scores are
76/70/0 and the weighted sum is `59.6`: `analyze` reports `int(59.6) = 59`,
while `round(59.6)` clamped to `[10, 100]` is `60`, so the claimed rounding
formula does not describe the code. -/
theorem score_round_counterexample :
    (analyzeResume resumeEx jobEx).score ≠
      max 10 (min (round (((analyzeResume resumeEx jobEx).keyword_score : ℚ) * 0.60 +
        ((analyzeResume resumeEx jobEx).skills_score : ℚ) * 0.20 +
        ((analyzeResume resumeEx jobEx).format_score : ℚ) * 0.20)) 100) := by
  rw [score_resumeEx_jobEx, analyzeResume_keyword_score, analyzeResume_skills_score,
    analyzeResume_format_score, keywordScore_resumeEx_jobEx, skillsScoreOf_resumeEx_jobEx,
    formatScore_resumeEx, round_eq]
  norm_num

/-- **C1 (amended).** The composite score equals the weighted sub-score sum
`keyword*0.60 + skills*0.20 + format*0.20` truncated with `int` (which is the
floor here, the sum being nonnegative) — not rounded — and then clamped to
`[10, 100]`. -/
theorem score_eq_clamped_floor (r j : Str) :
    (analyzeResume r j).score =
      max 10 (min ⌊((analyzeResume r j).keyword_score : ℚ) * 0.60 +
        ((analyzeResume r j).skills_score : ℚ) * 0.20 +
        ((analyzeResume r j).format_score : ℚ) * 0.20⌋ 100) := by
  rw [analyzeResume_score, analyzeResume_keyword_score, analyzeResume_skills_score,
    analyzeResume_format_score]
  have hk : (0 : ℚ) ≤ (keywordScore r j : ℚ) := by
    exact_mod_cast keywordScore_nonneg r j
  have hs : (0 : ℚ) ≤ (skillsScoreOf (matchSkills r j) : ℚ) := by
    exact_mod_cast skillsScoreOf_nonneg (matchSkills r j)
  have hf : (0 : ℚ) ≤ (formatScore r : ℚ) := by
    exact_mod_cast formatScore_nonneg r
  rw [pyIntQ, if_pos (by nlinarith)]

/-- **C2 (counterexample).** At `resumeEx`/`jobEx` the cosine is exactly
`5/13`, so `raw_sim*200 = 76.92…`: the code truncates to 76 while the claimed
`clamp(round(raw_sim*200), 0, 100)` is 77. -/
theorem keyword_round_counterexample :
    (analyzeResume resumeEx jobEx).keyword_score ≠
      max 0 (min (round (similarity resumeEx jobEx * 200)) 100) := by
  rw [analyzeResume_keyword_score, keywordScore_resumeEx_jobEx,
    similarity_resumeEx_jobEx, round_eq]
  norm_num

/-- **C2 (amended).** The keyword sub-score equals
`clamp(floor(raw_sim*200), 0, 100)` where `raw_sim` is the TF-IDF cosine
similarity of the two tokenized texts: `int` truncation (= floor, the
similarity being nonnegative), not rounding; the lower clamp never acts. -/
theorem keyword_eq_clamped_floor (r j : Str) :
    (analyzeResume r j).keyword_score =
      max 0 (min ⌊similarity r j * 200⌋ 100) := by
  rw [analyzeResume_keyword_score, keywordScore_eq_floor]
  rw [max_eq_right (le_min (Int.floor_nonneg.mpr
    (mul_nonneg (similarity_nonneg r j) (by norm_num))) (by norm_num))]

/-- **C3 (counterexample).** With resume `"python java"` and job
`"python java rust"`, the job requires the three skills
`python, java, rust`, two matched: the code reports
`int(2/3*100) = 66`, while the claimed `round(2/3*100)` is 67. -/
theorem skills_round_counterexample :
    (analyzeResume resumeSk jobSk).skills_score ≠
      round (((analyzeResume resumeSk jobSk).matched_skills.length : ℚ) /
        ((analyzeResume resumeSk jobSk).matched_skills.length +
          (analyzeResume resumeSk jobSk).missing_skills.length) * 100) := by
  rw [analyzeResume_skills_score, analyzeResume_matched_skills,
    analyzeResume_missing_skills,
    show matchSkills resumeSk jobSk = ⟨[S "python", S "java"], [S "rust"]⟩ from by decide,
    round_eq]
  norm_num [skillsScoreOf, pyIntQ]

/-- **C3 (amended).** When the job description requires at least one
taxonomy skill the skills sub-score is `floor(matched/(matched+missing)*100)`
(`int` truncation, not rounding); with no detectable required skill it is
exactly the fixed default 70. -/
theorem skills_eq_floor_or_default (r j : Str) :
    (analyzeResume r j).skills_score =
      if (matchSkills r j).matched.length + (matchSkills r j).missing.length = 0
      then 70
      else ⌊((matchSkills r j).matched.length : ℚ) /
        (((matchSkills r j).matched.length : ℚ) +
          ((matchSkills r j).missing.length : ℚ)) * 100⌋ := by
  rw [analyzeResume_skills_score, skillsScoreOf]
  by_cases h : (matchSkills r j).matched.length + (matchSkills r j).missing.length = 0
  · rw [if_pos h, if_neg (by omega)]
  · rw [if_neg h, if_pos (by omega), pyIntQ, if_pos (by positivity)]
    norm_num

theorem similarity_empty_left (j : Str) : similarity (S "") j = 0 := by
  rw [similarity, if_pos (Or.inl (by decide))]

theorem keywordScore_empty_left (j : Str) : keywordScore (S "") j = 0 := by
  rw [keywordScore, similarity_empty_left]
  norm_num [pyIntR]

theorem wbFound_nil {pat : Str} (h : pat ≠ []) : wbFound pat [] = false := by
  rcases pat with _ | ⟨c, t⟩
  · exact absurd rfl h
  · rw [wbFound]
    simp [wbMatchAt, occursAtB, List.range_succ]

set_option maxRecDepth 4000 in
theorem allSkills_ne_nil : ∀ s ∈ ALL_SKILLS, s ≠ [] := by decide

theorem matchSkills_empty_resume (j : Str) : (matchSkills (S "") j).matched = [] := by
  rw [matchSkills]
  have hfil : ((ALL_SKILLS.filter fun skill => wbFound skill (List.map asciiLower j)).filter
      fun skill => wbFound skill (List.map asciiLower (S ""))) = [] := by
    refine List.filter_eq_nil_iff.mpr fun skill hs => ?_
    have hne : skill ≠ [] := allSkills_ne_nil skill (List.mem_filter.mp hs).1
    simp [show List.map asciiLower (S "") = [] from rfl, wbFound_nil hne]
  simp only []
  rw [hfil]
  rfl

/-- **C7 (counterexample).** With an empty resume and an empty job
description the keyword score is 0 as claimed, but — the job requiring no
detectable skill — the skills default of 70 contributes `70*0.20 = 14`, so
the final score is 14, not the claimed clamp floor of 10. -/
theorem empty_resume_floor_counterexample :
    (analyzeResume (S "") (S "")).keyword_score = 0 ∧
      (analyzeResume (S "") (S "")).score = 14 ∧
      (analyzeResume (S "") (S "")).score ≠ 10 := by
  refine ⟨by rw [analyzeResume_keyword_score, keywordScore_empty_left], ?_, ?_⟩
  · rw [analyzeResume_score, keywordScore_empty_left,
      show matchSkills (S "") (S "") = ⟨[], []⟩ from by decide,
      show formatScore (S "") = 0 from by decide]
    norm_num [skillsScoreOf, pyIntQ]
  · rw [analyzeResume_score, keywordScore_empty_left,
      show matchSkills (S "") (S "") = ⟨[], []⟩ from by decide,
      show formatScore (S "") = 0 from by decide]
    norm_num [skillsScoreOf, pyIntQ]

/-- **C7 (amended).** For every job text, an empty resume yields
`keyword_score = 0` (the similarity degrades to 0 rather than raising); the
final score is the clamp floor 10 exactly when the job requires at least one
taxonomy skill, and is 14 (from the skills default 70) when it requires
none. -/
theorem empty_resume_spec (jd : Str) :
    (analyzeResume (S "") jd).keyword_score = 0 ∧
      ((matchSkills (S "") jd).matched.length + (matchSkills (S "") jd).missing.length ≠ 0 →
        (analyzeResume (S "") jd).score = 10) ∧
      ((matchSkills (S "") jd).matched.length + (matchSkills (S "") jd).missing.length = 0 →
        (analyzeResume (S "") jd).score = 14) := by
  refine ⟨by rw [analyzeResume_keyword_score, keywordScore_empty_left], ?_, ?_⟩
  · intro h
    have hm : (matchSkills (S "") jd).matched.length = 0 := by
      rw [matchSkills_empty_resume]; rfl
    have hs : skillsScoreOf (matchSkills (S "") jd) = 0 := by
      rw [skillsScoreOf, if_pos (by omega), hm]
      norm_num [pyIntQ]
    rw [analyzeResume_score, keywordScore_empty_left, hs,
      show formatScore (S "") = 0 from by decide]
    norm_num [pyIntQ]
  · intro h
    have hs : skillsScoreOf (matchSkills (S "") jd) = 70 := by
      rw [skillsScoreOf, if_neg (by omega)]
    rw [analyzeResume_score, keywordScore_empty_left, hs,
      show formatScore (S "") = 0 from by decide]
    norm_num [pyIntQ]

/-- Witness for the amended C7 at the concrete job text `"python"` (which
requires one skill): the empty resume scores exactly the floor 10. -/
theorem empty_resume_spec_witness :
    (matchSkills (S "") (S "python")).matched.length +
        (matchSkills (S "") (S "python")).missing.length ≠ 0 ∧
      (analyzeResume (S "") (S "python")).keyword_score = 0 ∧
      (analyzeResume (S "") (S "python")).score = 10 :=
  ⟨by decide, (empty_resume_spec (S "python")).1,
    (empty_resume_spec (S "python")).2.1 (by decide)⟩

/-! ### Claims C6 and C10: the word-boundary skill matcher -/

theorem matchSkills_matched_def (r j : Str) :
    (matchSkills r j).matched =
      pdedup ((ALL_SKILLS.filter fun skill => wbFound skill (j.map asciiLower)).filter
        fun skill => wbFound skill (r.map asciiLower)) := rfl

theorem matchSkills_missing_def (r j : Str) :
    (matchSkills r j).missing =
      pdedup ((ALL_SKILLS.filter fun skill => wbFound skill (j.map asciiLower)).filter
        fun skill => !wbFound skill (r.map asciiLower)) := rfl

theorem mem_matchSkills_matched {r j s : Str}
    (hs : s ∈ (matchSkills r j).matched) :
    s ∈ ALL_SKILLS ∧ wbFound s (j.map asciiLower) = true ∧
      wbFound s (r.map asciiLower) = true := by
  rw [matchSkills_matched_def] at hs
  have h1 := mem_pdedup.mp hs
  have h2 := List.mem_filter.mp h1
  have h3 := List.mem_filter.mp h2.1
  exact ⟨h3.1, h3.2, h2.2⟩

theorem mem_matchSkills_missing {r j s : Str}
    (hs : s ∈ (matchSkills r j).missing) :
    s ∈ ALL_SKILLS ∧ wbFound s (j.map asciiLower) = true ∧
      wbFound s (r.map asciiLower) = false := by
  rw [matchSkills_missing_def] at hs
  have h1 := mem_pdedup.mp hs
  have h2 := List.mem_filter.mp h1
  have h3 := List.mem_filter.mp h2.1
  exact ⟨h3.1, h3.2, by simpa using h2.2⟩

/-- **C6.** The skill matcher uses genuine word-boundary matching, never
substring containment: whenever the resume has no word-bounded occurrence of
`"go"` (for instance a resume containing only `"going"`), the skill `"go"`
is never reported as matched; in general, every matched skill has a
word-bounded occurrence in both lowercased texts, every missing skill has a
word-bounded occurrence in the job text only, and the matched and missing
lists are deduplicated sublists of the taxonomy (hence preserve taxonomy
order). -/
theorem matchSkills_word_boundary (r j : Str) :
    (S "going" <:+: r → wbFound (S "go") (r.map asciiLower) = false →
      S "go" ∉ (matchSkills r j).matched) ∧
    (∀ s ∈ (matchSkills r j).matched,
      s ∈ ALL_SKILLS ∧ wbFound s (j.map asciiLower) = true ∧
        wbFound s (r.map asciiLower) = true) ∧
    (∀ s ∈ (matchSkills r j).missing,
      s ∈ ALL_SKILLS ∧ wbFound s (j.map asciiLower) = true ∧
        wbFound s (r.map asciiLower) = false) ∧
    (matchSkills r j).matched.Nodup ∧ (matchSkills r j).missing.Nodup ∧
    List.Sublist (matchSkills r j).matched ALL_SKILLS ∧
    List.Sublist (matchSkills r j).missing ALL_SKILLS := by
  refine ⟨?_, fun s hs => mem_matchSkills_matched hs,
    fun s hs => mem_matchSkills_missing hs, ?_, ?_, ?_, ?_⟩
  · intro _hinf hnb hmem
    exact absurd (mem_matchSkills_matched hmem).2.2 (by simp [hnb])
  · rw [matchSkills_matched_def]; exact pdedup_nodup _
  · rw [matchSkills_missing_def]; exact pdedup_nodup _
  · rw [matchSkills_matched_def]
    exact (pdedup_sublist _).trans ((List.filter_sublist _).trans (List.filter_sublist _))
  · rw [matchSkills_missing_def]
    exact (pdedup_sublist _).trans ((List.filter_sublist _).trans (List.filter_sublist _))

/-- Witness for C6: resume `"python going"` (contains `going`, no standalone
`go`), job `"go python"` (requires both `go` and `python`): `go` is not
matched, while `python` is and sits word-bounded in both texts. -/
theorem matchSkills_word_boundary_witness :
    (S "going" <:+: S "python going") ∧
      wbFound (S "go") ((S "python going").map asciiLower) = false ∧
      S "go" ∉ (matchSkills (S "python going") (S "go python")).matched ∧
      S "python" ∈ (matchSkills (S "python going") (S "go python")).matched ∧
      (S "python" ∈ ALL_SKILLS ∧
        wbFound (S "python") ((S "go python").map asciiLower) = true ∧
        wbFound (S "python") ((S "python going").map asciiLower) = true) :=
  ⟨by decide, by decide,
    (matchSkills_word_boundary (S "python going") (S "go python")).1 (by decide) (by decide),
    by decide,
    (matchSkills_word_boundary (S "python going") (S "go python")).2.1 (S "python") (by decide)⟩

theorem occursAtB_getElem {pat s : Str} {i k : ℕ} (h : occursAtB pat s i = true)
    (hk : k < pat.length) : s[i + k]? = pat[k]? := by
  rw [occursAtB, decide_eq_true_eq] at h
  have h2 := congrArg (fun l => l[k]?) h
  simpa [List.getElem?_take, List.getElem?_drop, hk] using h2

theorem occursAtB_lt_length {pat s : Str} {i : ℕ} (h : occursAtB pat s i = true)
    (hne : pat ≠ []) : i < s.length := by
  by_contra hge
  rw [occursAtB, decide_eq_true_eq, List.drop_eq_nil_of_le (by omega),
    List.take_nil] at h
  exact hne h.symm

/-- A pattern whose final character is not a word character can only match
`\b pat \b` where the character right after the occurrence IS a word
character; so if every occurrence is followed by end-of-text or a non-word
character, the search fails. -/
theorem wbFound_eq_false_of_trailing_nonword {pat hay : Str} (hne : pat ≠ [])
    (hlast : ∀ c, pat.getLast? = some c → isWordChar c = false)
    (hocc : ∀ i < hay.length, occursAtB pat hay i = true →
      isWordOpt hay[i + pat.length]? = false) :
    wbFound pat hay = false := by
  by_contra hfound
  rw [Bool.not_eq_false, wbFound, List.any_eq_true] at hfound
  obtain ⟨i, -, hmatch⟩ := hfound
  rw [wbMatchAt, Bool.and_eq_true, Bool.and_eq_true] at hmatch
  obtain ⟨⟨hocc', -⟩, hbnd⟩ := hmatch
  have hip : 0 < pat.length := List.length_pos.mpr hne
  have hilt : i < hay.length := occursAtB_lt_length hocc' hne
  have hprev : hay[i + pat.length - 1]? = pat[pat.length - 1]? := by
    have := occursAtB_getElem hocc' (k := pat.length - 1) (by omega)
    rw [show i + (pat.length - 1) = i + pat.length - 1 by omega] at this
    exact this
  have hlastval : ∀ c, pat[pat.length - 1]? = some c → isWordChar c = false := by
    intro c hc
    exact hlast c (by rw [List.getLast?_eq_getElem?]; exact hc)
  rw [boundaryAt, if_neg (by omega)] at hbnd
  have hleft : isWordOpt hay[i + pat.length - 1]? = false := by
    rw [hprev]
    rcases hp : pat[pat.length - 1]? with _ | c
    · rfl
    · exact hlastval c hp
  have hright : isWordOpt hay[i + pat.length]? = false := hocc i hilt hocc'
  rw [hleft, hright] at hbnd
  exact absurd hbnd (by simp)

/-- **C10.** A taxonomy skill whose final character is not a word character
(such as `c++` or `c#`) is undetectable in ordinary prose: whenever every
occurrence of the skill in the lowercased job text is followed by
end-of-text or a non-word character (whitespace, punctuation), the trailing
`\b` appended after `re.escape(skill)` cannot match, so the matcher reports
the skill as neither required, nor matched, nor missing. -/
theorem trailing_nonword_skill_spec (skill r jd : Str)
    (_hmem : skill ∈ ALL_SKILLS) (hne : skill ≠ [])
    (hlast : ∀ c, skill.getLast? = some c → isWordChar c = false)
    (hocc : ∀ i < (jd.map asciiLower).length,
      occursAtB skill (jd.map asciiLower) i = true →
        isWordOpt (jd.map asciiLower)[i + skill.length]? = false) :
    skill ∉ (ALL_SKILLS.filter fun sk => wbFound sk (jd.map asciiLower)) ∧
      skill ∉ (matchSkills r jd).matched ∧ skill ∉ (matchSkills r jd).missing := by
  have hnf : wbFound skill (jd.map asciiLower) = false :=
    wbFound_eq_false_of_trailing_nonword hne hlast hocc
  refine ⟨fun hmem' => ?_, fun hmem' => ?_, fun hmem' => ?_⟩
  · exact absurd (List.mem_filter.mp hmem').2 (by simp [hnf])
  · exact absurd (mem_matchSkills_matched hmem').2.1 (by simp [hnf])
  · exact absurd (mem_matchSkills_missing hmem').2.1 (by simp [hnf])

/-- Witness for C10: the skill `"c++"` in the job text `"c++ developer"`
(where it occurs followed by a space) is neither required, matched, nor
missing. -/
theorem trailing_nonword_skill_spec_witness :
    (S "c++" ∈ ALL_SKILLS ∧ S "c++" ≠ [] ∧
      (∀ c, (S "c++").getLast? = some c → isWordChar c = false) ∧
      (∀ i < ((S "c++ developer").map asciiLower).length,
        occursAtB (S "c++") ((S "c++ developer").map asciiLower) i = true →
          isWordOpt ((S "c++ developer").map asciiLower)[i + (S "c++").length]? = false)) ∧
    (S "c++" ∉ (ALL_SKILLS.filter fun sk =>
        wbFound sk ((S "c++ developer").map asciiLower)) ∧
      S "c++" ∉ (matchSkills (S "c++ resume") (S "c++ developer")).matched ∧
      S "c++" ∉ (matchSkills (S "c++ resume") (S "c++ developer")).missing) :=
  ⟨⟨by decide, by decide, by decide, by decide⟩,
    trailing_nonword_skill_spec (S "c++") (S "c++ resume") (S "c++ developer")
      (by decide) (by decide) (by decide) (by decide)⟩

/-! ### Claim C9: result-shape invariants -/

theorem sortLex_perm (l : List Str) : (sortLex l).Perm l :=
  List.mergeSort_perm l _

theorem lexLe_trans_bool (a b c : Str) : decide (a ≤ b) = true →
    decide (b ≤ c) = true → decide (a ≤ c) = true := fun h1 h2 =>
  decide_eq_true (le_trans (of_decide_eq_true h1) (of_decide_eq_true h2))

theorem lexLe_total_bool (a b : Str) :
    (decide (a ≤ b) || decide (b ≤ a)) = true := by
  rcases le_total a b with h | h <;> simp [h]

theorem sortLex_sorted (l : List Str) :
    List.Sorted (fun a b : Str => a ≤ b) (sortLex l) := by
  have h := List.sorted_mergeSort lexLe_trans_bool lexLe_total_bool l
  exact h.imp fun hab => of_decide_eq_true hab

theorem sortLex_eq_of_perm {l l' : List Str} (h : l.Perm l')
    (hs : List.Sorted (fun a b : Str => a ≤ b) l') : sortLex l = l' :=
  List.eq_of_perm_of_sorted ((sortLex_perm l).trans h) (sortLex_sorted l) hs

theorem keywordOverlap_matched_def (r j : Str) :
    (keywordOverlap r j).matched =
      (sortLex ((pdedup (topKeywords j 40)).filter
        fun k => (topKeywords r 60).contains k)).take 20 := rfl

theorem keywordOverlap_missing_def (r j : Str) :
    (keywordOverlap r j).missing =
      (sortLex ((pdedup (topKeywords j 40)).filter
        fun k => !(topKeywords r 60).contains k)).take 20 := rfl

theorem generateSuggestions_length_le (score : ℤ) (a b : List Str) :
    (generateSuggestions score a b).length ≤ 8 :=
  List.length_take_le 8 _

/-- **C9.** For every input pair the result satisfies the stated field
bounds: the matched/missing keyword lists have at most 20 entries each and
are lexicographically sorted, the suggestion list has at most 8 entries, and
each of the three sub-scores is an integer in `[0, 100]`. -/
theorem analyzeResume_field_bounds (r j : Str) :
    ((analyzeResume r j).matched_keywords.length ≤ 20 ∧
      List.Sorted (fun a b : Str => a ≤ b) (analyzeResume r j).matched_keywords) ∧
    ((analyzeResume r j).missing_keywords.length ≤ 20 ∧
      List.Sorted (fun a b : Str => a ≤ b) (analyzeResume r j).missing_keywords) ∧
    (analyzeResume r j).suggestions.length ≤ 8 ∧
    (0 ≤ (analyzeResume r j).keyword_score ∧ (analyzeResume r j).keyword_score ≤ 100) ∧
    (0 ≤ (analyzeResume r j).skills_score ∧ (analyzeResume r j).skills_score ≤ 100) ∧
    (0 ≤ (analyzeResume r j).format_score ∧ (analyzeResume r j).format_score ≤ 100) := by
  refine ⟨⟨?_, ?_⟩, ⟨?_, ?_⟩, ?_, ⟨?_, ?_⟩, ⟨?_, ?_⟩, ⟨?_, ?_⟩⟩
  · rw [analyzeResume_matched_keywords, keywordOverlap_matched_def]
    exact List.length_take_le 20 _
  · rw [analyzeResume_matched_keywords, keywordOverlap_matched_def]
    exact List.Pairwise.sublist (List.take_sublist 20 _) (sortLex_sorted _)
  · rw [analyzeResume_missing_keywords, keywordOverlap_missing_def]
    exact List.length_take_le 20 _
  · rw [analyzeResume_missing_keywords, keywordOverlap_missing_def]
    exact List.Pairwise.sublist (List.take_sublist 20 _) (sortLex_sorted _)
  · rw [analyzeResume_suggestions]
    exact generateSuggestions_length_le _ _ _
  · rw [analyzeResume_keyword_score]; exact keywordScore_nonneg r j
  · rw [analyzeResume_keyword_score]; exact keywordScore_le r j
  · rw [analyzeResume_skills_score]; exact skillsScoreOf_nonneg _
  · rw [analyzeResume_skills_score]; exact skillsScoreOf_le _
  · rw [analyzeResume_format_score]; exact formatScore_nonneg r
  · rw [analyzeResume_format_score]; exact formatScore_le r

/-! ### Claim C8: overlap monotonicity -/

theorem skillsScoreOf_mono {d1 d2 : SkillMatch}
    (hm : d1.matched.length ≤ d2.matched.length)
    (hx : d2.missing.length ≤ d1.missing.length) :
    skillsScoreOf d1 ≤ skillsScoreOf d2 := by
  rw [skillsScoreOf, skillsScoreOf]
  by_cases h1 : 0 < d1.matched.length + d1.missing.length
  · by_cases h2 : 0 < d2.matched.length + d2.missing.length
    · rw [if_pos h1, if_pos h2, pyIntQ, pyIntQ,
        if_pos (by positivity), if_pos (by positivity)]
      apply Int.floor_le_floor
      have hm' : (d1.matched.length : ℚ) ≤ (d2.matched.length : ℚ) := by
        exact_mod_cast hm
      have hx' : (d2.missing.length : ℚ) ≤ (d1.missing.length : ℚ) := by
        exact_mod_cast hx
      have ht1 : (0 : ℚ) < ((d1.matched.length + d1.missing.length : ℕ) : ℚ) := by
        exact_mod_cast h1
      have ht2 : (0 : ℚ) < ((d2.matched.length + d2.missing.length : ℕ) : ℚ) := by
        exact_mod_cast h2
      rw [div_mul_eq_mul_div, div_mul_eq_mul_div, div_le_div_iff₀ ht1 ht2]
      push_cast at ht1 ht2 ⊢
      nlinarith
    · have hm2 : d2.matched.length = 0 := by omega
      have hm1 : d1.matched.length = 0 := by omega
      rw [if_pos h1, if_neg h2, hm1]
      norm_num [pyIntQ]
  · have hx2 : d2.missing.length = 0 := by omega
    rw [if_neg h1]
    by_cases h2 : 0 < d2.matched.length + d2.missing.length
    · rw [if_pos h2, hx2]
      have hm2 : (0 : ℚ) < (d2.matched.length : ℚ) := by
        have : 0 < d2.matched.length := by omega
        exact_mod_cast this
      rw [show ((d2.matched.length + 0 : ℕ) : ℚ) = (d2.matched.length : ℚ) by push_cast; ring,
        div_self (ne_of_gt hm2)]
      norm_num [pyIntQ]
    · rw [if_neg h2]

/-- **C8 (amended).** The intended monotonicity holds one level down: the
skills sub-score never decreases when the matched-skill set grows and the
missing-skill set shrinks, and the keyword sub-score never decreases when
the raw TF-IDF cosine similarity grows.  (The claim's own formulation —
a superset keyword/skill overlap alone never decreases either score — is
refuted by `overlap_monotonicity_counterexample`.) -/
theorem score_monotonicity (r j1 j2 : Str) :
    ((analyzeResume r j1).matched_skills ⊆ (analyzeResume r j2).matched_skills →
      (analyzeResume r j2).missing_skills ⊆ (analyzeResume r j1).missing_skills →
      (analyzeResume r j1).skills_score ≤ (analyzeResume r j2).skills_score) ∧
    (similarity r j1 ≤ similarity r j2 →
      (analyzeResume r j1).keyword_score ≤ (analyzeResume r j2).keyword_score) := by
  constructor
  · intro hm hx
    rw [analyzeResume_matched_skills, analyzeResume_matched_skills] at hm
    rw [analyzeResume_missing_skills, analyzeResume_missing_skills] at hx
    rw [analyzeResume_skills_score, analyzeResume_skills_score]
    have hnodup1 : (matchSkills r j1).matched.Nodup := by
      rw [matchSkills_matched_def]; exact pdedup_nodup _
    have hnodup2 : (matchSkills r j2).missing.Nodup := by
      rw [matchSkills_missing_def]; exact pdedup_nodup _
    exact skillsScoreOf_mono ((hnodup1.subperm hm).length_le)
      ((hnodup2.subperm hx).length_le)
  · intro hsim
    rw [analyzeResume_keyword_score, analyzeResume_keyword_score,
      keywordScore_eq_floor, keywordScore_eq_floor]
    exact min_le_min (Int.floor_le_floor (by nlinarith)) le_rfl

/-- Witness for the amended C8 at `resumeSk`/`jobSk` against themselves
(subset and similarity hypotheses hold reflexively). -/
theorem score_monotonicity_witness :
    ((analyzeResume resumeSk jobSk).matched_skills ⊆
        (analyzeResume resumeSk jobSk).matched_skills ∧
      similarity resumeSk jobSk ≤ similarity resumeSk jobSk) ∧
    ((analyzeResume resumeSk jobSk).skills_score ≤
        (analyzeResume resumeSk jobSk).skills_score ∧
      (analyzeResume resumeSk jobSk).keyword_score ≤
        (analyzeResume resumeSk jobSk).keyword_score) :=
  ⟨⟨List.Subset.refl _, le_refl _⟩,
    (score_monotonicity resumeSk jobSk jobSk).1 (List.Subset.refl _)
      (List.Subset.refl _),
    (score_monotonicity resumeSk jobSk jobSk).2 (le_refl _)⟩

theorem topKeywords_perm_of_le (t : Str) (n : ℕ)
    (h : (pdedup (tokenize t)).length ≤ n) :
    (topKeywords t n).Perm (pdedup (tokenize t)) := by
  rw [topKeywords, List.take_of_length_le]
  · exact List.mergeSort_perm _ _
  · rw [(List.mergeSort_perm _ _).length_eq]; exact h

theorem perm_pair {α : Type} {l : List α} {a b : α} (h : l.Perm [a, b]) :
    l = [a, b] ∨ l = [b, a] := by
  rcases l with _ | ⟨x, _ | ⟨y, _ | ⟨z, l'⟩⟩⟩
  · exact absurd h.length_eq (by simp)
  · exact absurd h.length_eq (by simp)
  · have hx : x ∈ [a, b] := h.mem_iff.mp (List.mem_cons_self _ _)
    rcases List.mem_cons.mp hx with rfl | hx
    · left
      rw [List.perm_singleton.mp h.cons_inv]
    · rw [List.mem_singleton] at hx
      subst hx
      right
      have h2 := h.trans (List.Perm.swap x a [])
      have h3 := List.perm_singleton.mp h2.cons_inv
      injection h3 with h4 _
      rw [h4]
  · exact absurd h.length_eq (by simp)

theorem matched_keywords_pair_eval {jk rk : List Str}
    (hj : jk = [S "apple", S "berry"] ∨ jk = [S "berry", S "apple"])
    (hr : rk = [S "apple", S "berry"] ∨ rk = [S "berry", S "apple"]) :
    (sortLex ((pdedup jk).filter fun k => rk.contains k)).take 20 =
      [S "apple", S "berry"] := by
  have hsorted : List.Sorted (fun a b : Str => a ≤ b)
      [S "apple", S "berry"] := by decide
  have hp : ([S "berry", S "apple"] : List Str).Perm
      [S "apple", S "berry"] := by decide
  rcases hj with rfl | rfl <;> rcases hr with rfl | rfl
  · rw [show ((pdedup [S "apple", S "berry"]).filter fun k =>
        ([S "apple", S "berry"] : List Str).contains k) =
        [S "apple", S "berry"] from by decide,
      sortLex_eq_of_perm (List.Perm.refl _) hsorted]
    rfl
  · rw [show ((pdedup [S "apple", S "berry"]).filter fun k =>
        ([S "berry", S "apple"] : List Str).contains k) =
        [S "apple", S "berry"] from by decide,
      sortLex_eq_of_perm (List.Perm.refl _) hsorted]
    rfl
  · rw [show ((pdedup [S "berry", S "apple"]).filter fun k =>
        ([S "apple", S "berry"] : List Str).contains k) =
        [S "berry", S "apple"] from by decide,
      sortLex_eq_of_perm hp hsorted]
    rfl
  · rw [show ((pdedup [S "berry", S "apple"]).filter fun k =>
        ([S "berry", S "apple"] : List Str).contains k) =
        [S "berry", S "apple"] from by decide,
      sortLex_eq_of_perm hp hsorted]
    rfl

theorem matched_keywords_resumeEx_self :
    (analyzeResume resumeEx resumeEx).matched_keywords =
      [S "apple", S "berry"] := by
  rw [analyzeResume_matched_keywords, keywordOverlap_matched_def]
  have hjd := topKeywords_perm_of_le resumeEx 40 (by decide)
  have hres := topKeywords_perm_of_le resumeEx 60 (by decide)
  rw [show pdedup (tokenize resumeEx) = [S "apple", S "berry"] from by decide]
    at hjd hres
  exact matched_keywords_pair_eval (perm_pair hjd) (perm_pair hres)

theorem matched_keywords_resumeEx_jobEx :
    (analyzeResume resumeEx jobEx).matched_keywords =
      [S "apple", S "berry"] := by
  rw [analyzeResume_matched_keywords, keywordOverlap_matched_def]
  have hjd := topKeywords_perm_of_le jobEx 40 (by decide)
  have hres := topKeywords_perm_of_le resumeEx 60 (by decide)
  rw [show pdedup (tokenize jobEx) = [S "apple", S "berry"] from by decide] at hjd
  rw [show pdedup (tokenize resumeEx) = [S "apple", S "berry"] from by decide] at hres
  exact matched_keywords_pair_eval (perm_pair hjd) (perm_pair hres)

/-- **C8 (counterexample).** Fix the resume `resumeEx`; take `J1 :=
resumeEx` itself and `J2 := jobEx`.  Both analyses report exactly the same
matched keywords (`apple, berry`) and the same matched skills (none), so
`J2`'s exact keyword/skill overlap with the resume is a (non-strict)
superset of `J1`'s; yet the keyword score drops from 100 (cosine 1) to 76
(cosine `5/13`), refuting the claimed monotonicity. -/
theorem overlap_monotonicity_counterexample :
    (analyzeResume resumeEx resumeEx).matched_keywords ⊆
        (analyzeResume resumeEx jobEx).matched_keywords ∧
      (analyzeResume resumeEx resumeEx).matched_skills ⊆
        (analyzeResume resumeEx jobEx).matched_skills ∧
      (analyzeResume resumeEx jobEx).keyword_score <
        (analyzeResume resumeEx resumeEx).keyword_score := by
  refine ⟨?_, ?_, ?_⟩
  · rw [matched_keywords_resumeEx_self, matched_keywords_resumeEx_jobEx]
    exact List.Subset.refl _
  · rw [analyzeResume_matched_skills, analyzeResume_matched_skills,
      show matchSkills resumeEx resumeEx = ⟨[], []⟩ from by decide,
      matchSkills_resumeEx_jobEx]
    exact List.Subset.refl _
  · rw [analyzeResume_keyword_score, analyzeResume_keyword_score,
      keywordScore_resumeEx_jobEx, keywordScore_self (by decide)]
    norm_num

end Analyzer
